import Mathlib

/-!
Verification of the generic A* search engine (`stdext::astar::algo`,
`src/astar_algo.hpp`, 2023 revision) as instantiated by the demo driver
(`src/test/test_astar_algo.cpp`).

The embedding models:
* `XYNode` — the demo's `xy_node` (derived from `base_node<int>`): node id,
  coordinates, the general score (g), the heuristic score (h) and the
  caller-side adjacency list (`neighbors`, a list of indices into the
  caller-owned node list).
* The engine's state (`AState`): the caller's node store (the enumerator
  dereferences into it, so relaxation mutates it in place), the priority
  queue of snapshot copies (`priority_open_set_`), the open- and closed-set
  membership indices keyed by node id (`std::set<int>` via `operator int()`),
  the predecessor map (`solution_`), the last examined node (`node_`), the
  target node and the `has_solution_` flag.
* The priority queue is `std::priority_queue<xy_node>` with the default
  `std::less` comparator, which resolves through `xy_node::operator int()`
  to a comparison of node ids: `top()` surfaces a maximal-id entry.  Among
  entries of equal id (duplicate snapshots of one node) the embedding
  resolves the order deterministically, first-pushed first.
* The caller-supplied collaborators (cost function, heuristic update,
  verifier, beam filter) are a parameter `Collab`, mirroring the template
  parameters of `algo`.
-/

structure XYNode where
  id : Int
  x : Int
  y : Int
  general_score : Int
  heuristic_score : Int
  neighbors : List Nat
deriving DecidableEq

instance : Inhabited XYNode := ⟨⟨0, 0, 0, 0, 0, []⟩⟩

/-- `base_node::total_score`: f = g + h. -/
def XYNode.total_score (n : XYNode) : Int := n.general_score + n.heuristic_score

/-- `xy_node::distance_to`: `_x * node._x + _y + node._y`. -/
def XYNode.distance_to (a b : XYNode) : Int := a.x * b.x + a.y + b.y

/-- The caller-supplied collaborators of `algo` (its template parameters):
edge cost, heuristic update (the engine calls
`set_heuristic_score(tentative_general_score, target_node_)`, so the
heuristic may depend on the current general score), solution verifier and
beam filter (called with the relaxed neighbor, the solution map, the open
set and the priority queue, returning `true` to reject). -/
structure Collab where
  dist : XYNode → XYNode → Int
  heur : Int → XYNode → XYNode → Int
  verifier : XYNode → Bool
  beam : XYNode → List (Int × Int) → List Int → List XYNode → Bool

/-- `stdext::astar::no_beam_search`: the dummy beam filter, always `false`. -/
def no_beam_search : XYNode → List (Int × Int) → List Int → List XYNode → Bool :=
  fun _ _ _ _ => false

/-- `priority_queue::top()` for the demo instantiation: a maximal-id entry
(`std::less` on `xy_node` compares the ids via `operator int()`; the default
`std::priority_queue` is a max-heap).  Among equal ids the earliest-pushed
entry is surfaced. -/
def qtop : List XYNode → XYNode
  | [] => default
  | q :: qs => qs.foldl (fun b n => if b.id < n.id then n else b) q

/-- `priority_queue::pop()`: removes the entry surfaced by `qtop`. -/
def qpop (q : List XYNode) : List XYNode :=
  q.eraseP (fun n => n.id == (qtop q).id)

/-- `priority_queue::push()`. -/
def qpush (q : List XYNode) (n : XYNode) : List XYNode := q ++ [n]

/-- `std::set<int>::insert`: no-op when the id is already present. -/
def setInsert (s : List Int) (i : Int) : List Int := if i ∈ s then s else i :: s

/-- `std::set<int>::erase`. -/
def setErase (s : List Int) (i : Int) : List Int := s.erase i

/-- `solution_[neighbor] = node_`: map assignment, overwriting any previous
entry for the key. -/
def mapAssign (m : List (Int × Int)) (k v : Int) : List (Int × Int) :=
  (k, v) :: m.filter (fun p => p.1 != k)

/-- Lookup in the solution map. -/
def mapLookup (m : List (Int × Int)) (k : Int) : Option Int :=
  (m.find? (fun p => p.1 == k)).map (fun p => p.2)

/-- The run state of one `algo` instance (its data members), together with
the caller-owned node list (`store`) that the neighbor enumerator
dereferences into. -/
structure AState where
  store : List XYNode
  priority_open_set : List XYNode
  open_set : List Int
  closed_set : List Int
  solution : List (Int × Int)
  node : XYNode
  target_node : XYNode
  has_solution : Bool
deriving DecidableEq

/-- `tentative_general_score = node_.general_score() + node_.distance_to(neighbor)`
where `neighbor` is the store entry at index `idx`. -/
def tentativeScore (c : Collab) (s : AState) (idx : Nat) : Int :=
  s.node.general_score + c.dist s.node (s.store.getD idx default)

/-- The neighbor after `set_general_score(tentative)` and
`set_heuristic_score(tentative, target_node_)`. -/
def relaxedNeighbor (c : Collab) (s : AState) (idx : Nat) : XYNode :=
  { s.store.getD idx default with
      general_score := tentativeScore c s idx,
      heuristic_score := c.heur (tentativeScore c s idx)
        { s.store.getD idx default with general_score := tentativeScore c s idx }
        s.target_node }

/-- The body of the neighbor loop of `algo::evaluate_neighbors` for one
neighbor (already known not to be in the closed set): if the neighbor is
not in the open set, or the tentative score improves on its stored general
score, its scores are updated in the caller's store; then, unless the beam
filter rejects it, the solution map records `node_` as its predecessor and
it is inserted into the open set and pushed onto the priority queue. -/
def relaxOne (c : Collab) (s : AState) (idx : Nat) : AState :=
  if (s.store.getD idx default).id ∉ s.open_set ∨
      tentativeScore c s idx < (s.store.getD idx default).general_score then
    if c.beam (relaxedNeighbor c s idx) s.solution s.open_set s.priority_open_set then
      { s with store := s.store.set idx (relaxedNeighbor c s idx) }
    else
      { s with store := s.store.set idx (relaxedNeighbor c s idx),
               solution := mapAssign s.solution (relaxedNeighbor c s idx).id s.node.id,
               open_set := setInsert s.open_set (relaxedNeighbor c s idx).id,
               priority_open_set := qpush s.priority_open_set (relaxedNeighbor c s idx) }
  else s

/-- One iteration of the neighbor loop: neighbors already in the closed set
are skipped (the `if` guard inside the `for` loop). -/
def relaxStep (c : Collab) (st : AState) (idx : Nat) : AState :=
  if (st.store.getD idx default).id ∈ st.closed_set then st else relaxOne c st idx

/-- The whole neighbor loop, over the enumerator's index sequence. -/
def evalLoop (c : Collab) (st : AState) (ns : List Nat) : AState :=
  ns.foldl (relaxStep c) st

/-- `algo::evaluate_neighbors`: pop `node_` from the priority queue, erase it
from the open set, insert it into the closed set, then run the neighbor loop
over the enumerator seeded with `node_`. -/
def evaluate_neighbors (c : Collab) (s : AState) : AState :=
  evalLoop c
    { s with priority_open_set := qpop s.priority_open_set,
             open_set := setErase s.open_set s.node.id,
             closed_set := setInsert s.closed_set s.node.id }
    s.node.neighbors

/-- `algo::operator()`: if the open set is empty, return `false`; otherwise
peek the queue top as `node_`, set `has_solution_` from the verifier; on
acceptance return `false`, else expand the node and return `true`. -/
def step (c : Collab) (s : AState) : AState × Bool :=
  if s.open_set = [] then (s, false)
  else if c.verifier (qtop s.priority_open_set) then
    ({ s with node := qtop s.priority_open_set, has_solution := true }, false)
  else
    (evaluate_neighbors c
      { s with node := qtop s.priority_open_set, has_solution := false }, true)

/-- `algo::algo`: update the start node's heuristic score (passing `0` and
the target), then insert the copy into the open set and push it onto the
priority queue.  The caller's store is untouched. -/
def init (c : Collab) (start target_node : XYNode) (store : List XYNode) : AState :=
  { store := store,
    priority_open_set := [{ start with heuristic_score := c.heur 0 start target_node }],
    open_set := setInsert [] start.id,
    closed_set := [],
    solution := [],
    node := default,
    target_node := target_node,
    has_solution := false }

/-- Iterated stepping: the state after `n` calls of `algo::operator()`. -/
def iterState (c : Collab) (s : AState) : Nat → AState
  | 0 => s
  | n + 1 => (step c (iterState c s n)).1

/-- The demo's cost function. -/
def demoDist : XYNode → XYNode → Int := XYNode.distance_to

/-- The demo's heuristic update: `set_heuristic_score(distance_to(target))`,
independent of the current general score. -/
def demoHeur : Int → XYNode → XYNode → Int := fun _ n t => XYNode.distance_to n t

/-- The demo's `solution_verifier`: compares the node id with a fixed id. -/
def demoVerifier (tid : Int) : XYNode → Bool := fun n => n.id == tid

/-- The demo collaborator set with the dummy beam filter. -/
def demoCollab (tid : Int) : Collab :=
  ⟨demoDist, demoHeur, demoVerifier tid, no_beam_search⟩

/-- Number of priority-queue entries carrying the id `i`. -/
def countQ (i : Int) (q : List XYNode) : Nat :=
  (q.filter (fun n => n.id == i)).length

/-! ### Concrete caller inputs used by the evidence theorems -/

/-- A target node with id 99 (no node of the sample graphs carries this id,
so the verifier never accepts and the runs below are pure expansions). -/
def t99 : XYNode := ⟨99, 0, 0, 0, 0, []⟩

/-- Sample graph for the frontier-ordering evidence: node 0 at (0,0) with
neighbors 1 and 2, node 1 at (1,1), node 2 at (1,3). -/
def store1 : List XYNode :=
  [⟨0, 0, 0, 0, 0, [1, 2]⟩, ⟨1, 1, 1, 0, 0, []⟩, ⟨2, 1, 3, 0, 0, []⟩]

/-- Demo collaborators looking for id 99. -/
def c1c : Collab := demoCollab 99

/-- The engine state after constructing on node 0 of `store1` and performing
one step (which expands node 0 and pushes nodes 1 and 2). -/
def s1after : AState := (step c1c (init c1c (store1.getD 0 default) t99 store1)).1

/-- Sample graph for the stale-duplicate evidence: start node 3 reaches
node 1 directly (cost 10) and through node 2 (total cost 0), so node 1 is
pushed twice; its second copy surfaces after node 1 is already closed. -/
def store2 : List XYNode :=
  [⟨0, 0, 0, 0, 0, []⟩, ⟨1, 0, 10, 0, 0, [0]⟩, ⟨2, 0, -5, 0, 0, [1]⟩,
   ⟨3, 0, 0, 0, 0, [2, 1]⟩]

/-- Demo collaborators for the `store2` run. -/
def c2c : Collab := demoCollab 99

/-- The `store2` run: state after `n` steps from construction on node 3. -/
def s2run (n : Nat) : AState :=
  iterState c2c (init c2c (store2.getD 3 default) t99 store2) n

/-- Collaborators with a beam filter that always rejects node 0. -/
def c8c : Collab := ⟨demoDist, demoHeur, demoVerifier 99, fun n _ _ _ => n.id == 0⟩

/-- Sample graph for the rejected-node score evidence: start node 2 relaxes
node 0 with cost 1 (beam-rejected), then node 1 relaxes node 0 again with
cost 11. -/
def store3 : List XYNode :=
  [⟨0, 0, 1, 0, 0, []⟩, ⟨1, 0, 5, 0, 0, [0]⟩, ⟨2, 0, 0, 0, 0, [1, 0]⟩]

/-- The `store3` run under the node-0-rejecting beam filter. -/
def s8run (n : Nat) : AState :=
  iterState c8c (init c8c (store3.getD 2 default) t99 store3) n

/-- A start node whose general score is 5, not 0. -/
def start5 : XYNode := ⟨7, 0, 0, 5, 0, []⟩

/-- A state in which node 0 (stored score 5) is open and has a solution-map
entry with predecessor 7, while the current node has id 9 and reaches it
with tentative score 1. -/
def sC4 : AState :=
  ⟨[⟨0, 0, 0, 5, 0, []⟩], [], [0], [], [(0, 7)], ⟨9, 0, 1, 0, 0, []⟩, t99, false⟩

/-- Collaborators whose beam filter always rejects. -/
def cRejectAll : Collab := ⟨demoDist, demoHeur, demoVerifier 99, fun _ _ _ _ => true⟩

/-- A state with one open node (id 0, stored score 5) reachable from the
current node (id 9) with tentative score 1. -/
def sC7 : AState :=
  ⟨[⟨0, 0, 0, 5, 0, []⟩], [], [0], [], [], ⟨9, 0, 1, 0, 0, []⟩, t99, false⟩

/-- A terminal state: the open set is empty. -/
def sEmptyOpen : AState := ⟨[], [], [], [], [], default, t99, false⟩

/-- A state with node 5 closed and absent from the open set. -/
def sC2w : AState :=
  ⟨[], [⟨5, 0, 0, 0, 0, []⟩, ⟨2, 0, 0, 0, 0, []⟩], [2], [5], [], default, t99, false⟩

/-- A state whose single stored node (id 0, score 5) is open; the queue is
empty, so a step expands the default node, which has no neighbors. -/
def sC8w : AState :=
  ⟨[⟨0, 0, 0, 5, 0, []⟩], [], [0], [], [], default, t99, false⟩

/-! ### Frame lemmas about the relaxation loop -/

lemma relaxOne_closed (c : Collab) (s : AState) (idx : Nat) :
    (relaxOne c s idx).closed_set = s.closed_set := by
  unfold relaxOne
  split
  · split <;> rfl
  · rfl

lemma relaxOne_node (c : Collab) (s : AState) (idx : Nat) :
    (relaxOne c s idx).node = s.node := by
  unfold relaxOne
  split
  · split <;> rfl
  · rfl

lemma relaxOne_target (c : Collab) (s : AState) (idx : Nat) :
    (relaxOne c s idx).target_node = s.target_node := by
  unfold relaxOne
  split
  · split <;> rfl
  · rfl

lemma relaxOne_has_solution (c : Collab) (s : AState) (idx : Nat) :
    (relaxOne c s idx).has_solution = s.has_solution := by
  unfold relaxOne
  split
  · split <;> rfl
  · rfl

lemma relaxStep_closed (c : Collab) (s : AState) (idx : Nat) :
    (relaxStep c s idx).closed_set = s.closed_set := by
  unfold relaxStep
  split
  · rfl
  · exact relaxOne_closed c s idx

lemma relaxStep_node (c : Collab) (s : AState) (idx : Nat) :
    (relaxStep c s idx).node = s.node := by
  unfold relaxStep
  split
  · rfl
  · exact relaxOne_node c s idx

lemma relaxStep_target (c : Collab) (s : AState) (idx : Nat) :
    (relaxStep c s idx).target_node = s.target_node := by
  unfold relaxStep
  split
  · rfl
  · exact relaxOne_target c s idx

lemma relaxStep_has_solution (c : Collab) (s : AState) (idx : Nat) :
    (relaxStep c s idx).has_solution = s.has_solution := by
  unfold relaxStep
  split
  · rfl
  · exact relaxOne_has_solution c s idx

lemma evalLoop_closed (c : Collab) :
    ∀ (ns : List Nat) (st : AState), (evalLoop c st ns).closed_set = st.closed_set := by
  intro ns
  induction ns with
  | nil => intro st; rfl
  | cons i t ih =>
    intro st
    calc (evalLoop c (relaxStep c st i) t).closed_set
        = (relaxStep c st i).closed_set := ih _
      _ = st.closed_set := relaxStep_closed c st i

lemma evalLoop_node (c : Collab) :
    ∀ (ns : List Nat) (st : AState), (evalLoop c st ns).node = st.node := by
  intro ns
  induction ns with
  | nil => intro st; rfl
  | cons i t ih =>
    intro st
    calc (evalLoop c (relaxStep c st i) t).node
        = (relaxStep c st i).node := ih _
      _ = st.node := relaxStep_node c st i

lemma evalLoop_has_solution (c : Collab) :
    ∀ (ns : List Nat) (st : AState), (evalLoop c st ns).has_solution = st.has_solution := by
  intro ns
  induction ns with
  | nil => intro st; rfl
  | cons i t ih =>
    intro st
    calc (evalLoop c (relaxStep c st i) t).has_solution
        = (relaxStep c st i).has_solution := ih _
      _ = st.has_solution := relaxStep_has_solution c st i

/-! ### Lemmas about the caller store and the membership indices -/

lemma getD_set_ne (l : List XYNode) (i j : Nat) (v : XYNode) (h : i ≠ j) :
    ((l.set i v).getD j default) = l.getD j default := by
  simp [List.getD, List.getElem?_set_ne h]

lemma getD_set_self_or (l : List XYNode) (i : Nat) (v : XYNode) :
    ((l.set i v).getD i default = v ∧ i < l.length) ∨ l.set i v = l := by
  by_cases h : i < l.length
  · exact Or.inl ⟨by simp [List.getD, List.getElem?_set_self, h], h⟩
  · exact Or.inr (List.set_eq_of_length_le (Nat.le_of_not_lt h))

lemma getD_set_id (l : List XYNode) (i j : Nat) (v : XYNode)
    (h : v.id = (l.getD i default).id) :
    ((l.set i v).getD j default).id = (l.getD j default).id := by
  by_cases hij : i = j
  · subst hij
    rcases getD_set_self_or l i v with ⟨h1, _⟩ | h1
    · rw [h1, h]
    · rw [h1]
  · rw [getD_set_ne l i j v hij]

lemma relaxedNeighbor_id (c : Collab) (s : AState) (idx : Nat) :
    (relaxedNeighbor c s idx).id = (s.store.getD idx default).id := rfl

lemma relaxOne_store_id (c : Collab) (s : AState) (idx j : Nat) :
    ((relaxOne c s idx).store.getD j default).id = ((s.store.getD j default)).id := by
  unfold relaxOne
  split
  · split <;> exact getD_set_id s.store idx j _ (relaxedNeighbor_id c s idx)
  · rfl

lemma relaxStep_store_id (c : Collab) (s : AState) (idx j : Nat) :
    ((relaxStep c s idx).store.getD j default).id = ((s.store.getD j default)).id := by
  unfold relaxStep
  split
  · rfl
  · exact relaxOne_store_id c s idx j

lemma mem_setInsert_iff (a b : Int) (s : List Int) :
    a ∈ setInsert s b ↔ a = b ∨ a ∈ s := by
  unfold setInsert
  by_cases h : b ∈ s <;> simp [h]
  intro ha
  rw [ha]
  exact h

lemma mem_setInsert_of_mem (a b : Int) (s : List Int) (h : a ∈ s) : a ∈ setInsert s b :=
  (mem_setInsert_iff a b s).mpr (Or.inr h)

lemma setInsert_self_mem (b : Int) (s : List Int) : b ∈ setInsert s b :=
  (mem_setInsert_iff b b s).mpr (Or.inl rfl)

lemma mapLookup_mapAssign (m : List (Int × Int)) (k v : Int) :
    mapLookup (mapAssign m k v) k = some v := by
  simp [mapLookup, mapAssign, List.find?]

/-! ### Claim theorems: construction, step contract, relaxation bookkeeping -/

/-- Claim C5, as stated, fails: construction does not set the start node's
general score to zero.  Constructing on a start node whose general score is
5 leaves the single frontier entry with general score 5, not 0. -/
theorem c5_start_score_not_zeroed :
    (init (demoCollab 99) start5 t99 []).priority_open_set.map XYNode.general_score
        = [5] ∧
    (init (demoCollab 99) start5 t99 []).priority_open_set.map XYNode.general_score
        ≠ [0] := by
  constructor
  · rfl
  · decide

/-- Claim C5 (amended): engine construction updates the start node's
heuristic score against the target (passing 0 as the current general score),
leaves its general score exactly as supplied by the caller, inserts the copy
into both the frontier and the open set, and performs no relaxation: the
closed set and the solution map remain empty and `has_solution` is false. -/
theorem c5_construction_effect (c : Collab) (start target : XYNode) (store : List XYNode) :
    (init c start target store).priority_open_set
        = [{ start with heuristic_score := c.heur 0 start target }] ∧
    (init c start target store).open_set = [start.id] ∧
    (init c start target store).closed_set = [] ∧
    (init c start target store).solution = [] ∧
    ({ start with heuristic_score := c.heur 0 start target } : XYNode).general_score
        = start.general_score ∧
    (init c start target store).has_solution = false := by
  refine ⟨rfl, ?_, rfl, rfl, rfl, rfl⟩
  simp [init, setInsert]

/-- Claim C6: `step` returns `false` exactly when the open-set index (the
spec's frontier) is empty or the verifier accepts the peeked top entry; in
the empty case the whole state — in particular `has_solution` — is left
unchanged, and otherwise `has_solution` is set to the verifier's verdict on
the peeked entry (so acceptance sets it to `true`). -/
theorem c6_step_false_characterization (c : Collab) (s : AState) :
    ((step c s).2 = false ↔
      s.open_set = [] ∨ c.verifier (qtop s.priority_open_set) = true) ∧
    ((step c s).1.has_solution =
      if s.open_set = [] then s.has_solution
      else c.verifier (qtop s.priority_open_set)) ∧
    (s.open_set = [] → (step c s).1 = s) := by
  unfold step
  by_cases h1 : s.open_set = []
  · simp [h1]
  · by_cases h2 : c.verifier (qtop s.priority_open_set)
    · simp [h1, h2]
    · simp [h1, h2, evaluate_neighbors, evalLoop_has_solution]

/-- Claim C4: when a relaxation finds a strictly better cost for a node that
already has a solution-map entry and the beam filter accepts the candidate,
the entry is overwritten to map the node to the new predecessor `node_`. -/
theorem c4_solution_overwritten_on_improvement (c : Collab) (s : AState) (idx : Nat)
    (p : Int)
    (_hentry : mapLookup s.solution (s.store.getD idx default).id = some p)
    (himpr : tentativeScore c s idx < (s.store.getD idx default).general_score)
    (hbeam : c.beam (relaxedNeighbor c s idx) s.solution s.open_set
        s.priority_open_set = false) :
    mapLookup (relaxOne c s idx).solution (s.store.getD idx default).id
      = some s.node.id := by
  unfold relaxOne
  rw [if_pos (Or.inr himpr), if_neg (by simp [hbeam])]
  exact mapLookup_mapAssign s.solution _ s.node.id

/-- Witness for C4 at a concrete state: node 0 has predecessor entry 7 and
stored score 5; the current node 9 reaches it with tentative score 1; after
the relaxation the entry maps node 0 to predecessor 9. -/
theorem c4_solution_overwritten_on_improvement_witness :
    mapLookup (relaxOne (demoCollab 99) sC4 0).solution
        ((sC4.store.getD 0 default)).id = some sC4.node.id :=
  c4_solution_overwritten_on_improvement (demoCollab 99) sC4 0 7
    (by decide) (by decide) (by decide)

/-- Claim C7: if the beam filter rejects a relaxed neighbor, nothing further
happens for it — the solution map, the open set and the priority queue are
all left unchanged (only the score update already written to the caller's
store stands); and the default `no_beam_search` filter never rejects. -/
theorem c7_beam_reject_no_admission (c : Collab) (s : AState) (idx : Nat)
    (hbeam : c.beam (relaxedNeighbor c s idx) s.solution s.open_set
        s.priority_open_set = true) :
    (relaxOne c s idx).solution = s.solution ∧
    (relaxOne c s idx).open_set = s.open_set ∧
    (relaxOne c s idx).priority_open_set = s.priority_open_set ∧
    ∀ n m o q, no_beam_search n m o q = false := by
  unfold relaxOne
  by_cases hcond : (s.store.getD idx default).id ∉ s.open_set ∨
      tentativeScore c s idx < (s.store.getD idx default).general_score
  · rw [if_pos hcond, if_pos hbeam]
    exact ⟨rfl, rfl, rfl, fun _ _ _ _ => rfl⟩
  · rw [if_neg hcond]
    exact ⟨rfl, rfl, rfl, fun _ _ _ _ => rfl⟩

/-- Witness for C7 at a concrete state: an always-rejecting beam filter on a
relaxation that updates node 0 leaves solution map, open set and queue
untouched. -/
theorem c7_beam_reject_no_admission_witness :
    (relaxOne cRejectAll sC7 0).solution = sC7.solution ∧
    (relaxOne cRejectAll sC7 0).open_set = sC7.open_set ∧
    (relaxOne cRejectAll sC7 0).priority_open_set = sC7.priority_open_set ∧
    ∀ n m o q, no_beam_search n m o q = false :=
  c7_beam_reject_no_admission cRejectAll sC7 0 (by decide)

/-- Claim C1, evidence of the ordering defect: after the first step of the
`store1` run the frontier holds node 1 with total score 2 and node 2 with
total score 6; the entry peeked by the second step (`node_`) is the top of
the priority structure, which is node 2 — the maximal id — and not the
frontier entry with the minimum total score. -/
theorem c1_top_not_min_total :
    (step c1c s1after).1.node = qtop s1after.priority_open_set ∧
    (qtop s1after.priority_open_set).id = 2 ∧
    (qtop s1after.priority_open_set).total_score = 6 ∧
    (∃ q ∈ s1after.priority_open_set, q.id = 1 ∧ q.total_score = 2) := by
  decide

/-- Claim C3: the neighbor loop of `evaluate_neighbors` considers every
neighbor produced by the enumerator: it is equivalent to relaxing exactly
the neighbors not in the closed set, in order — each closed neighbor is
individually skipped and enumeration continues with the rest. -/
theorem c3_closed_neighbors_skipped_individually (c : Collab) (st : AState)
    (ns : List Nat) :
    evalLoop c st ns =
      (ns.filter
        (fun idx => decide ((st.store.getD idx default).id ∉ st.closed_set))).foldl
        (relaxOne c) st := by
  induction ns generalizing st with
  | nil => rfl
  | cons i t ih =>
    by_cases hmem : (st.store.getD i default).id ∈ st.closed_set
    · have hskip : relaxStep c st i = st := by
        unfold relaxStep
        rw [if_pos hmem]
      have hfilter :
          (i :: t).filter
              (fun idx => decide ((st.store.getD idx default).id ∉ st.closed_set))
            = t.filter
              (fun idx => decide ((st.store.getD idx default).id ∉ st.closed_set)) :=
        List.filter_cons_of_neg
          (by simp only [decide_eq_true_eq]; exact fun hn => hn hmem)
      calc evalLoop c st (i :: t)
          = evalLoop c (relaxStep c st i) t := rfl
        _ = evalLoop c st t := by rw [hskip]
        _ = (t.filter
              (fun idx => decide ((st.store.getD idx default).id ∉ st.closed_set))).foldl
              (relaxOne c) st := ih st
        _ = ((i :: t).filter
              (fun idx => decide ((st.store.getD idx default).id ∉ st.closed_set))).foldl
              (relaxOne c) st := by rw [hfilter]
    · have hr : relaxStep c st i = relaxOne c st i := by
        unfold relaxStep
        rw [if_neg hmem]
      have hcongr :
          t.filter
              (fun idx => decide (((relaxOne c st i).store.getD idx default).id
                ∉ (relaxOne c st i).closed_set))
            = t.filter
              (fun idx => decide ((st.store.getD idx default).id ∉ st.closed_set)) := by
        apply List.filter_congr
        intro a _
        rw [relaxOne_store_id c st i a, relaxOne_closed c st i]
      have hfilter :
          (i :: t).filter
              (fun idx => decide ((st.store.getD idx default).id ∉ st.closed_set))
            = i :: t.filter
              (fun idx => decide ((st.store.getD idx default).id ∉ st.closed_set)) :=
        List.filter_cons_of_pos (decide_eq_true hmem)
      calc evalLoop c st (i :: t)
          = evalLoop c (relaxOne c st i) t := by
            rw [show evalLoop c st (i :: t) = evalLoop c (relaxStep c st i) t from rfl, hr]
        _ = (t.filter
              (fun idx => decide (((relaxOne c st i).store.getD idx default).id
                ∉ (relaxOne c st i).closed_set))).foldl
              (relaxOne c) (relaxOne c st i) := ih (relaxOne c st i)
        _ = (t.filter
              (fun idx => decide ((st.store.getD idx default).id ∉ st.closed_set))).foldl
              (relaxOne c) (relaxOne c st i) := by rw [hcongr]
        _ = ((i :: t).filter
              (fun idx => decide ((st.store.getD idx default).id ∉ st.closed_set))).foldl
              (relaxOne c) st := by rw [hfilter, List.foldl_cons]

/-- Claim C10: once a step call returns `false`, every subsequent step call
returns `false` from the very same state — the frontier, open set, closed
set, solution map and `has_solution` flag are all left unchanged forever. -/
theorem c10_terminal_step_idempotent (c : Collab) (s s' : AState)
    (h : step c s = (s', false)) :
    step c s' = (s', false) ∧ ∀ n, iterState c s' n = s' := by
  have hfix : step c s' = (s', false) := by
    unfold step at h
    by_cases h1 : s.open_set = []
    · rw [if_pos h1] at h
      injection h with h2 h3
      subst h2
      unfold step
      rw [if_pos h1]
    · by_cases h2 : c.verifier (qtop s.priority_open_set) = true
      · rw [if_neg h1, if_pos h2] at h
        injection h with h3 h4
        subst h3
        simp [step, h1, h2]
      · rw [if_neg h1, if_neg h2] at h
        injection h with h3 h4
        exact absurd h4 (by decide)
  refine ⟨hfix, ?_⟩
  intro n
  induction n with
  | zero => rfl
  | succ n ih =>
    show (step c (iterState c s' n)).1 = s'
    rw [ih, hfix]

/-- Witness for C10 at a concrete terminal state (empty open set). -/
theorem c10_terminal_step_idempotent_witness :
    step (demoCollab 99) sEmptyOpen = (sEmptyOpen, false) ∧
    ∀ n, iterState (demoCollab 99) sEmptyOpen n = sEmptyOpen :=
  c10_terminal_step_idempotent (demoCollab 99) sEmptyOpen sEmptyOpen (by decide)

/-! ### Claim C2: closed nodes and stale frontier duplicates -/

lemma countQ_qpush_ne (i : Int) (q : List XYNode) (n : XYNode) (h : n.id ≠ i) :
    countQ i (qpush q n) = countQ i q := by
  have : (n.id == i) = false := by simp [h]
  simp [countQ, qpush, List.filter_append, this]

lemma countQ_qpop_le (i : Int) (q : List XYNode) : countQ i (qpop q) ≤ countQ i q :=
  List.Sublist.length_le
    (List.Sublist.filter _ (List.eraseP_sublist q))

lemma evalLoop_closed_frozen (c : Collab) (i : Int) :
    ∀ (ns : List Nat) (st : AState), i ∈ st.closed_set → i ∉ st.open_set →
      i ∈ (evalLoop c st ns).closed_set ∧ i ∉ (evalLoop c st ns).open_set ∧
      countQ i (evalLoop c st ns).priority_open_set
        ≤ countQ i st.priority_open_set := by
  intro ns
  induction ns with
  | nil => exact fun st hc ho => ⟨hc, ho, Nat.le_refl _⟩
  | cons j t ih =>
    intro st hc ho
    have hone : i ∈ (relaxStep c st j).closed_set ∧ i ∉ (relaxStep c st j).open_set ∧
        countQ i (relaxStep c st j).priority_open_set
          ≤ countQ i st.priority_open_set := by
      unfold relaxStep
      by_cases hskip : (st.store.getD j default).id ∈ st.closed_set
      · rw [if_pos hskip]
        exact ⟨hc, ho, Nat.le_refl _⟩
      · rw [if_neg hskip]
        have hne : (st.store.getD j default).id ≠ i := fun he => hskip (he ▸ hc)
        unfold relaxOne
        by_cases hcond : (st.store.getD j default).id ∉ st.open_set ∨
            tentativeScore c st j < (st.store.getD j default).general_score
        · rw [if_pos hcond]
          by_cases hbeam : c.beam (relaxedNeighbor c st j) st.solution st.open_set
              st.priority_open_set = true
          · rw [if_pos hbeam]
            exact ⟨hc, ho, Nat.le_refl _⟩
          · rw [if_neg hbeam]
            refine ⟨hc, ?_, ?_⟩
            · intro hmem
              rcases (mem_setInsert_iff i _ st.open_set).mp hmem with he | hmem2
              · exact hne (by rw [relaxedNeighbor_id] at he; exact he.symm)
              · exact ho hmem2
            · exact Nat.le_of_eq
                (countQ_qpush_ne i st.priority_open_set _
                  (by rw [relaxedNeighbor_id]; exact hne))
        · rw [if_neg hcond]
          exact ⟨hc, ho, Nat.le_refl _⟩
    obtain ⟨h1, h2, h3⟩ := hone
    obtain ⟨g1, g2, g3⟩ := ih (relaxStep c st j) h1 h2
    exact ⟨g1, g2, Nat.le_trans g3 h3⟩

lemma step_closed_frozen (c : Collab) (s : AState) (i : Int)
    (hc : i ∈ s.closed_set) (ho : i ∉ s.open_set) :
    i ∈ (step c s).1.closed_set ∧ i ∉ (step c s).1.open_set ∧
      countQ i (step c s).1.priority_open_set ≤ countQ i s.priority_open_set := by
  unfold step
  by_cases h1 : s.open_set = []
  · rw [if_pos h1]
    exact ⟨hc, ho, Nat.le_refl _⟩
  · rw [if_neg h1]
    by_cases h2 : c.verifier (qtop s.priority_open_set) = true
    · rw [if_pos h2]
      exact ⟨hc, ho, Nat.le_refl _⟩
    · rw [if_neg h2]
      unfold evaluate_neighbors
      have hpre :=
        evalLoop_closed_frozen c i
          ({ s with node := qtop s.priority_open_set, has_solution := false } :
              AState).node.neighbors
          { ({ s with node := qtop s.priority_open_set, has_solution := false } :
              AState) with
            priority_open_set := qpop s.priority_open_set,
            open_set := setErase s.open_set (qtop s.priority_open_set).id,
            closed_set := setInsert s.closed_set (qtop s.priority_open_set).id }
          (mem_setInsert_of_mem i _ s.closed_set hc)
          (fun hmem => ho (List.mem_of_mem_erase hmem))
      obtain ⟨g1, g2, g3⟩ := hpre
      exact ⟨g1, g2, Nat.le_trans g3 (countQ_qpop_le i s.priority_open_set)⟩

/-- Claim C2 (amended): once a node's id is in the closed set and out of the
open set, every further run keeps it closed and out of the open set, and the
number of frontier entries carrying its id never grows — a closed node is
never re-admitted to the frontier.  (The second half of the original claim
is refuted by `c2_stale_duplicate_reexpanded`: a stale frontier duplicate of
a closed node is *not* ignored when it surfaces.) -/
theorem c2_closed_never_readmitted (c : Collab) (s : AState) (i : Int)
    (hc : i ∈ s.closed_set) (ho : i ∉ s.open_set) :
    ∀ n, i ∈ (iterState c s n).closed_set ∧ i ∉ (iterState c s n).open_set ∧
      countQ i (iterState c s n).priority_open_set
        ≤ countQ i s.priority_open_set := by
  intro n
  induction n with
  | zero => exact ⟨hc, ho, Nat.le_refl _⟩
  | succ n ih =>
    obtain ⟨h1, h2, h3⟩ := ih
    obtain ⟨g1, g2, g3⟩ := step_closed_frozen c (iterState c s n) i h1 h2
    exact ⟨g1, g2, Nat.le_trans g3 h3⟩

/-- Witness for the amended C2 at a concrete state: node 5 is closed and
absent from the open set; two steps later it is still closed, still not
open, and its frontier-entry count has not grown. -/
theorem c2_closed_never_readmitted_witness :
    (5 : Int) ∈ (iterState (demoCollab 99) sC2w 2).closed_set ∧
    (5 : Int) ∉ (iterState (demoCollab 99) sC2w 2).open_set ∧
    countQ 5 (iterState (demoCollab 99) sC2w 2).priority_open_set
      ≤ countQ 5 sC2w.priority_open_set :=
  c2_closed_never_readmitted (demoCollab 99) sC2w 5 (by decide) (by decide) 2

/-- Claim C2, refutation of the second half: in the `store2` run, after three
steps node 1 is closed while a stale duplicate of it sits at the top of the
frontier; the fourth step does not ignore it — it re-expands it, re-relaxing
its neighbor 0 (whose stored general score changes from 20 to 10) and
returning `true`. -/
theorem c2_stale_duplicate_reexpanded :
    (1 : Int) ∈ (s2run 3).closed_set ∧
    (qtop (s2run 3).priority_open_set).id = 1 ∧
    (step c2c (s2run 3)).2 = true ∧
    ((s2run 3).store.getD 0 default).general_score = 20 ∧
    ((step c2c (s2run 3)).1.store.getD 0 default).general_score = 10 := by
  decide

/-- Claim C8, refutation: under a beam filter that always rejects node 0,
the `store3` run first writes general score 1 into node 0 (admission then
rejected), and one step later overwrites it with 11 — the stored general
score of a node increases across step calls. -/
theorem c8_rejected_node_score_increases :
    ((s8run 1).store.getD 0 default).general_score = 1 ∧
    ((s8run 2).store.getD 0 default).general_score = 11 ∧
    (1 : Int) < 11 := by
  decide

/-! ### Claim C8 (amended): monotonicity for admitted nodes -/

lemma evalLoop_score_mono (c : Collab) (j : Nat) :
    ∀ (ns : List Nat) (st : AState),
      ((st.store.getD j default).id ∈ st.open_set ∨
        (st.store.getD j default).id ∈ st.closed_set) →
      ((evalLoop c st ns).store.getD j default).general_score
          ≤ (st.store.getD j default).general_score ∧
      ((evalLoop c st ns).store.getD j default).id = (st.store.getD j default).id ∧
      (((evalLoop c st ns).store.getD j default).id ∈ (evalLoop c st ns).open_set ∨
        ((evalLoop c st ns).store.getD j default).id ∈ (evalLoop c st ns).closed_set) := by
  intro ns
  induction ns with
  | nil => exact fun st hm => ⟨Int.le_refl _, rfl, hm⟩
  | cons i t ih =>
    intro st hm
    have hone :
        ((relaxStep c st i).store.getD j default).general_score
            ≤ (st.store.getD j default).general_score ∧
        ((relaxStep c st i).store.getD j default).id = (st.store.getD j default).id ∧
        (((relaxStep c st i).store.getD j default).id ∈ (relaxStep c st i).open_set ∨
          ((relaxStep c st i).store.getD j default).id ∈ (relaxStep c st i).closed_set) := by
      refine ⟨?_, relaxStep_store_id c st i j, ?_⟩
      · unfold relaxStep
        by_cases hskip : (st.store.getD i default).id ∈ st.closed_set
        · rw [if_pos hskip]
        · rw [if_neg hskip]
          unfold relaxOne
          by_cases hcond : (st.store.getD i default).id ∉ st.open_set ∨
              tentativeScore c st i < (st.store.getD i default).general_score
          · rw [if_pos hcond]
            have hval :
                ((st.store.set i (relaxedNeighbor c st i)).getD j default).general_score
                  ≤ (st.store.getD j default).general_score := by
              by_cases hij : i = j
              · subst hij
                rcases getD_set_self_or st.store i (relaxedNeighbor c st i) with
                  ⟨hset, _⟩ | hset
                · rw [hset]
                  show tentativeScore c st i ≤ (st.store.getD i default).general_score
                  rcases hcond with hno | hlt
                  · rcases hm with hop | hcl
                    · exact absurd hop hno
                    · exact absurd hcl hskip
                  · exact Int.le_of_lt hlt
                · rw [hset]
              · rw [getD_set_ne st.store i j _ hij]
            by_cases hbeam : c.beam (relaxedNeighbor c st i) st.solution st.open_set
                st.priority_open_set = true
            · rw [if_pos hbeam]
              exact hval
            · rw [if_neg hbeam]
              exact hval
          · rw [if_neg hcond]
      · rw [relaxStep_store_id c st i j, relaxStep_closed c st i]
        unfold relaxStep
        by_cases hskip : (st.store.getD i default).id ∈ st.closed_set
        · rw [if_pos hskip]
          exact hm
        · rw [if_neg hskip]
          unfold relaxOne
          by_cases hcond : (st.store.getD i default).id ∉ st.open_set ∨
              tentativeScore c st i < (st.store.getD i default).general_score
          · rw [if_pos hcond]
            by_cases hbeam : c.beam (relaxedNeighbor c st i) st.solution st.open_set
                st.priority_open_set = true
            · rw [if_pos hbeam]
              exact hm
            · rw [if_neg hbeam]
              rcases hm with hop | hcl
              · exact Or.inl (mem_setInsert_of_mem _ _ st.open_set hop)
              · exact Or.inr hcl
          · rw [if_neg hcond]
            exact hm
    obtain ⟨h1, h2, h3⟩ := hone
    obtain ⟨g1, g2, g3⟩ := ih (relaxStep c st i) h3
    refine ⟨?_, ?_, ?_⟩
    · show ((evalLoop c (relaxStep c st i) t).store.getD j default).general_score
        ≤ (st.store.getD j default).general_score
      exact Int.le_trans g1 h1
    · show ((evalLoop c (relaxStep c st i) t).store.getD j default).id
        = (st.store.getD j default).id
      rw [g2, h2]
    · exact g3

/-- Claim C8 (amended): a single step never increases the stored general
score of a node whose id is already admitted — in the open set or the closed
set.  (The original claim extends this to beam-rejected nodes as well and is
refuted by `c8_rejected_node_score_increases`: a rejected node is in neither
set, and a later relaxation can overwrite its stored score upward.) -/
theorem c8_admitted_score_monotone (c : Collab) (s : AState) (j : Nat)
    (hm : (s.store.getD j default).id ∈ s.open_set ∨
      (s.store.getD j default).id ∈ s.closed_set) :
    ((step c s).1.store.getD j default).general_score
        ≤ (s.store.getD j default).general_score ∧
    ((step c s).1.store.getD j default).id = (s.store.getD j default).id := by
  unfold step
  by_cases h1 : s.open_set = []
  · rw [if_pos h1]
    exact ⟨Int.le_refl _, rfl⟩
  · rw [if_neg h1]
    by_cases h2 : c.verifier (qtop s.priority_open_set) = true
    · rw [if_pos h2]
      exact ⟨Int.le_refl _, rfl⟩
    · rw [if_neg h2]
      unfold evaluate_neighbors
      have hm2 : (s.store.getD j default).id ∈
            setErase s.open_set (qtop s.priority_open_set).id ∨
          (s.store.getD j default).id ∈
            setInsert s.closed_set (qtop s.priority_open_set).id := by
        rcases hm with hop | hcl
        · by_cases hid : (s.store.getD j default).id = (qtop s.priority_open_set).id
          · exact Or.inr (hid ▸ setInsert_self_mem _ s.closed_set)
          · exact Or.inl ((List.mem_erase_of_ne hid).mpr hop)
        · exact Or.inr (mem_setInsert_of_mem _ _ s.closed_set hcl)
      obtain ⟨g1, g2, _⟩ :=
        evalLoop_score_mono c j
          ({ s with node := qtop s.priority_open_set, has_solution := false } :
              AState).node.neighbors
          { ({ s with node := qtop s.priority_open_set, has_solution := false } :
              AState) with
            priority_open_set := qpop s.priority_open_set,
            open_set := setErase s.open_set (qtop s.priority_open_set).id,
            closed_set := setInsert s.closed_set (qtop s.priority_open_set).id }
          hm2
      exact ⟨g1, g2⟩

/-- Witness for the amended C8 at a concrete state: node 0 is open with
stored score 5; a step leaves its stored score at most 5 and its id intact. -/
theorem c8_admitted_score_monotone_witness :
    ((step (demoCollab 99) sC8w).1.store.getD 0 default).general_score
        ≤ (sC8w.store.getD 0 default).general_score ∧
    ((step (demoCollab 99) sC8w).1.store.getD 0 default).id
        = (sC8w.store.getD 0 default).id :=
  c8_admitted_score_monotone (demoCollab 99) sC8w 0 (by decide)

/-! ### Claim C9: termination of repeated stepping -/

lemma qtop_mem : ∀ (q : List XYNode), q ≠ [] → qtop q ∈ q := by
  intro q
  cases q with
  | nil => intro h; exact absurd rfl h
  | cons x xs =>
    intro _
    show xs.foldl (fun b n => if b.id < n.id then n else b) x ∈ x :: xs
    have haux : ∀ (l : List XYNode) (b : XYNode),
        l.foldl (fun b n => if b.id < n.id then n else b) b = b ∨
        l.foldl (fun b n => if b.id < n.id then n else b) b ∈ l := by
      intro l
      induction l with
      | nil => exact fun b => Or.inl rfl
      | cons y ys ih =>
        intro b
        rcases ih (if b.id < y.id then y else b) with h | h
        · rw [List.foldl_cons, h]
          by_cases hb : b.id < y.id
          · rw [if_pos hb]
            exact Or.inr (List.mem_cons_self y ys)
          · rw [if_neg hb]
            exact Or.inl rfl
        · exact Or.inr (List.mem_cons_of_mem y h)
    rcases haux xs x with h | h
    · rw [h]
      exact List.mem_cons_self x xs
    · exact List.mem_cons_of_mem x h

lemma mem_eraseP_of_pred_false {p : XYNode → Bool} :
    ∀ (l : List XYNode) (x : XYNode), x ∈ l → p x = false → x ∈ l.eraseP p := by
  intro l
  induction l with
  | nil => intro x hx; exact absurd hx (List.not_mem_nil x)
  | cons a t ih =>
    intro x hx hp
    by_cases ha : p a = true
    · rw [List.eraseP_cons_of_pos ha]
      rcases List.mem_cons.mp hx with he | ht
      · exact absurd (he ▸ hp) (by simp [ha])
      · exact ht
    · rw [List.eraseP_cons_of_neg (by simpa using ha)]
      rcases List.mem_cons.mp hx with he | ht
      · exact he ▸ List.mem_cons_self a _
      · exact List.mem_cons_of_mem a (ih x ht hp)

lemma length_eraseP_of_exists {p : XYNode → Bool} :
    ∀ (l : List XYNode), (∃ x ∈ l, p x = true) → (l.eraseP p).length + 1 = l.length := by
  intro l
  induction l with
  | nil => intro ⟨x, hx, _⟩; exact absurd hx (List.not_mem_nil x)
  | cons a t ih =>
    intro ⟨x, hx, hp⟩
    by_cases ha : p a = true
    · rw [List.eraseP_cons_of_pos ha]
      rfl
    · rw [List.eraseP_cons_of_neg (by simpa using ha)]
      have hxt : x ∈ t := by
        rcases List.mem_cons.mp hx with he | ht
        · exact absurd (he ▸ hp) ha
        · exact ht
      have := ih ⟨x, hxt, hp⟩
      simp only [List.length_cons]
      omega

lemma qpop_length (q : List XYNode) (h : q ≠ []) : (qpop q).length + 1 = q.length :=
  length_eraseP_of_exists q ⟨qtop q, qtop_mem q h, by simp⟩

lemma setInsert_of_mem (s : List Int) (i : Int) (h : i ∈ s) : setInsert s i = s := by
  unfold setInsert
  rw [if_pos h]

lemma getD_mem (l : List XYNode) (i : Nat) (h : i < l.length) : l.getD i default ∈ l := by
  rw [List.getD_eq_getElem l default h]
  exact List.getElem_mem h

/-- Positions of the store whose node id has never been admitted: not in the
open set and not in the closed set. -/
def ucount (s : AState) : Nat :=
  ((Finset.range s.store.length).filter (fun j =>
    (s.store.getD j default).id ∉ s.open_set ∧
    (s.store.getD j default).id ∉ s.closed_set)).card

/-- Total stored general score (clamped at zero) over the open store
positions. -/
def wsum (s : AState) : Nat :=
  ∑ j in Finset.range s.store.length,
    (if (s.store.getD j default).id ∈ s.open_set
      then (s.store.getD j default).general_score.toNat else 0)

/-- The inner component of the termination measure: open scores plus the
frontier size. -/
def phi (s : AState) : Nat := wsum s + s.priority_open_set.length

/-- Well-formedness of one priority-queue entry: non-negative general score,
id recorded as admitted, and in-range neighbor indices. -/
def QProp (s : AState) (q : XYNode) : Prop :=
  0 ≤ q.general_score ∧ (q.id ∈ s.open_set ∨ q.id ∈ s.closed_set) ∧
  ∀ j ∈ q.neighbors, j < s.store.length

/-- The run invariant used for termination: every queue entry is
well-formed, the store's adjacency lists are in range, every open id has a
queue entry, and the open set has no duplicates. -/
def InvS (s : AState) : Prop :=
  (∀ q ∈ s.priority_open_set, QProp s q) ∧
  (∀ nd ∈ s.store, ∀ j ∈ nd.neighbors, j < s.store.length) ∧
  (∀ i ∈ s.open_set, ∃ q ∈ s.priority_open_set, q.id = i) ∧
  s.open_set.Nodup

lemma getD_set_self (l : List XYNode) (i : Nat) (v : XYNode) (h : i < l.length) :
    (l.set i v).getD i default = v := by
  simp [List.getD, List.getElem?_set_self, h]

lemma QProp_transport {s s' : AState} (q : XYNode) (h : QProp s q)
    (hop : ∀ a, a ∈ s.open_set → a ∈ s'.open_set)
    (hcl : s'.closed_set = s.closed_set)
    (hlen : s'.store.length = s.store.length) : QProp s' q := by
  obtain ⟨h1, h2, h3⟩ := h
  refine ⟨h1, ?_, ?_⟩
  · rcases h2 with h2 | h2
    · exact Or.inl (hop _ h2)
    · exact Or.inr (hcl ▸ h2)
  · intro j hj
    rw [hlen]
    exact h3 j hj

lemma relaxStep_measure (c : Collab) (hdist : ∀ a b, 0 ≤ c.dist a b)
    (st : AState) (i : Nat) (hi : i < st.store.length)
    (hg : 0 ≤ st.node.general_score) (hInv : InvS st) :
    InvS (relaxStep c st i) ∧
    (relaxStep c st i).store.length = st.store.length ∧
    (∀ a ∈ st.open_set, a ∈ (relaxStep c st i).open_set) ∧
    ucount (relaxStep c st i) ≤ ucount st ∧
    (ucount (relaxStep c st i) = ucount st → phi (relaxStep c st i) ≤ phi st) := by
  unfold relaxStep
  by_cases hskip : (st.store.getD i default).id ∈ st.closed_set
  · rw [if_pos hskip]
    exact ⟨hInv, rfl, fun a ha => ha, Nat.le_refl _, fun _ => Nat.le_refl _⟩
  · rw [if_neg hskip]
    unfold relaxOne
    by_cases hcond : (st.store.getD i default).id ∉ st.open_set ∨
        tentativeScore c st i < (st.store.getD i default).general_score
    swap
    · rw [if_neg hcond]
      exact ⟨hInv, rfl, fun a ha => ha, Nat.le_refl _, fun _ => Nat.le_refl _⟩
    rw [if_pos hcond]
    have hidst : ∀ j,
        ((st.store.set i (relaxedNeighbor c st i)).getD j default).id
          = (st.store.getD j default).id :=
      fun j => getD_set_id st.store i j _ (relaxedNeighbor_id c st i)
    have hlen : (st.store.set i (relaxedNeighbor c st i)).length = st.store.length :=
      List.length_set st.store i _
    have ht0 : 0 ≤ tentativeScore c st i :=
      Int.add_nonneg hg (hdist st.node (st.store.getD i default))
    have hwfset : ∀ nd ∈ st.store.set i (relaxedNeighbor c st i),
        ∀ j ∈ nd.neighbors, j < (st.store.set i (relaxedNeighbor c st i)).length := by
      intro nd hnd j hj
      rw [hlen]
      rcases List.mem_or_eq_of_mem_set hnd with hmem | heq
      · exact hInv.2.1 nd hmem j hj
      · subst heq
        exact hInv.2.1 (st.store.getD i default) (getD_mem st.store i hi) j hj
    by_cases hbeam : c.beam (relaxedNeighbor c st i) st.solution st.open_set
        st.priority_open_set = true
    · -- rejected: only the store changes
      rw [if_pos hbeam]
      refine ⟨⟨?_, hwfset, hInv.2.2.1, hInv.2.2.2⟩, hlen, fun a ha => ha, ?_, ?_⟩
      · intro q hq
        exact QProp_transport q (hInv.1 q hq) (fun a ha => ha) rfl hlen
      · apply Nat.le_of_eq
        unfold ucount
        dsimp only
        rw [hlen]
        apply congrArg Finset.card
        apply Finset.filter_congr
        intro j _
        rw [hidst j]
      · intro _
        unfold phi wsum
        dsimp only
        have hq : ∀ j ∈ Finset.range st.store.length,
            (if ((st.store.set i (relaxedNeighbor c st i)).getD j default).id
                ∈ st.open_set
              then ((st.store.set i (relaxedNeighbor c st i)).getD j
                default).general_score.toNat else 0)
            ≤ (if (st.store.getD j default).id ∈ st.open_set
              then (st.store.getD j default).general_score.toNat else 0) := by
          intro j _
          by_cases hij : i = j
          · subst hij
            rw [getD_set_self st.store i _ hi, relaxedNeighbor_id c st i]
            by_cases hop : (st.store.getD i default).id ∈ st.open_set
            · rw [if_pos hop, if_pos hop]
              have hlt : tentativeScore c st i
                  < (st.store.getD i default).general_score := by
                rcases hcond with hno | hlt
                · exact absurd hop hno
                · exact hlt
              have : (relaxedNeighbor c st i).general_score = tentativeScore c st i :=
                rfl
              rw [this]
              omega
            · rw [if_neg hop, if_neg hop]
          · rw [getD_set_ne st.store i j _ hij]
        calc (∑ j in Finset.range
                (st.store.set i (relaxedNeighbor c st i)).length,
              (if ((st.store.set i (relaxedNeighbor c st i)).getD j default).id
                  ∈ st.open_set
                then ((st.store.set i (relaxedNeighbor c st i)).getD j
                  default).general_score.toNat else 0))
              + st.priority_open_set.length
            = (∑ j in Finset.range st.store.length,
              (if ((st.store.set i (relaxedNeighbor c st i)).getD j default).id
                  ∈ st.open_set
                then ((st.store.set i (relaxedNeighbor c st i)).getD j
                  default).general_score.toNat else 0))
              + st.priority_open_set.length := by rw [hlen]
          _ ≤ (∑ j in Finset.range st.store.length,
              (if (st.store.getD j default).id ∈ st.open_set
                then (st.store.getD j default).general_score.toNat else 0))
              + st.priority_open_set.length := by
                have := Finset.sum_le_sum hq
                omega
    · -- accepted
      rw [if_neg hbeam]
      by_cases hop : (st.store.getD i default).id ∈ st.open_set
      · -- the id was already open: the open set is unchanged, the score drops
        have hopen' :
            setInsert st.open_set (relaxedNeighbor c st i).id = st.open_set :=
          setInsert_of_mem st.open_set _ hop
        have hlt : tentativeScore c st i
            < (st.store.getD i default).general_score := by
          rcases hcond with hno | hlt
          · exact absurd hop hno
          · exact hlt
        refine ⟨⟨?_, hwfset, ?_, ?_⟩, hlen, ?_, ?_, ?_⟩
        · intro q hq
          rcases List.mem_append.mp hq with hq | hq
          · refine QProp_transport q (hInv.1 q hq) ?_ rfl hlen
            intro a ha
            show a ∈ setInsert st.open_set (relaxedNeighbor c st i).id
            rw [hopen']
            exact ha
          · rw [List.mem_singleton] at hq
            subst hq
            refine ⟨ht0, ?_, ?_⟩
            · show (relaxedNeighbor c st i).id
                ∈ setInsert st.open_set (relaxedNeighbor c st i).id ∨ _
              exact Or.inl (setInsert_self_mem _ st.open_set)
            · intro j hj
              show j < (st.store.set i (relaxedNeighbor c st i)).length
              rw [hlen]
              exact hInv.2.1 (st.store.getD i default) (getD_mem st.store i hi) j hj
        · intro a ha
          dsimp only at ha
          rw [hopen'] at ha
          obtain ⟨q, hq, hqid⟩ := hInv.2.2.1 a ha
          exact ⟨q, List.mem_append.mpr (Or.inl hq), hqid⟩
        · show (setInsert st.open_set (relaxedNeighbor c st i).id).Nodup
          rw [hopen']
          exact hInv.2.2.2
        · intro a ha
          exact mem_setInsert_of_mem a _ st.open_set ha
        · apply Nat.le_of_eq
          unfold ucount
          dsimp only
          rw [hlen]
          apply congrArg Finset.card
          apply Finset.filter_congr
          intro j _
          rw [hidst j, hopen']
        · intro _
          have hql : (qpush st.priority_open_set (relaxedNeighbor c st i)).length
              = st.priority_open_set.length + 1 := by
            simp [qpush]
          have hirange : i ∈ Finset.range st.store.length := Finset.mem_range.mpr hi
          have hgen : ∀ j ∈ (Finset.range st.store.length).erase i,
              (if ((st.store.set i (relaxedNeighbor c st i)).getD j default).id
                  ∈ setInsert st.open_set (relaxedNeighbor c st i).id
                then ((st.store.set i (relaxedNeighbor c st i)).getD j
                  default).general_score.toNat else 0)
              = (if (st.store.getD j default).id ∈ st.open_set
                then (st.store.getD j default).general_score.toNat else 0) := by
            intro j hj
            obtain ⟨hne, _⟩ := Finset.mem_erase.mp hj
            rw [getD_set_ne st.store i j _ (fun he => hne he.symm), hopen']
          have hfi :
              (if ((st.store.set i (relaxedNeighbor c st i)).getD i default).id
                  ∈ setInsert st.open_set (relaxedNeighbor c st i).id
                then ((st.store.set i (relaxedNeighbor c st i)).getD i
                  default).general_score.toNat else 0) + 1
              ≤ (if (st.store.getD i default).id ∈ st.open_set
                then (st.store.getD i default).general_score.toNat else 0) := by
            rw [getD_set_self st.store i _ hi, hopen', relaxedNeighbor_id c st i,
              if_pos hop, if_pos hop]
            have : (relaxedNeighbor c st i).general_score = tentativeScore c st i := rfl
            rw [this]
            omega
          have hdecomp1 :
              ∑ j in (Finset.range st.store.length).erase i,
                (if ((st.store.set i (relaxedNeighbor c st i)).getD j default).id
                    ∈ setInsert st.open_set (relaxedNeighbor c st i).id
                  then ((st.store.set i (relaxedNeighbor c st i)).getD j
                    default).general_score.toNat else 0)
              + (if ((st.store.set i (relaxedNeighbor c st i)).getD i default).id
                    ∈ setInsert st.open_set (relaxedNeighbor c st i).id
                  then ((st.store.set i (relaxedNeighbor c st i)).getD i
                    default).general_score.toNat else 0)
              = ∑ j in Finset.range st.store.length,
                (if ((st.store.set i (relaxedNeighbor c st i)).getD j default).id
                    ∈ setInsert st.open_set (relaxedNeighbor c st i).id
                  then ((st.store.set i (relaxedNeighbor c st i)).getD j
                    default).general_score.toNat else 0) :=
            Finset.sum_erase_add _ _ hirange
          have hdecomp2 :
              ∑ j in (Finset.range st.store.length).erase i,
                (if (st.store.getD j default).id ∈ st.open_set
                  then (st.store.getD j default).general_score.toNat else 0)
              + (if (st.store.getD i default).id ∈ st.open_set
                  then (st.store.getD i default).general_score.toNat else 0)
              = ∑ j in Finset.range st.store.length,
                (if (st.store.getD j default).id ∈ st.open_set
                  then (st.store.getD j default).general_score.toNat else 0) :=
            Finset.sum_erase_add _ _ hirange
          have hgeneq := Finset.sum_congr rfl hgen
          unfold phi wsum
          dsimp only
          rw [hlen, hql, ← hdecomp1, ← hdecomp2, hgeneq]
          omega
      · -- fresh admission: the never-admitted count strictly drops
        have hopnb : (relaxedNeighbor c st i).id ∉ st.open_set := hop
        have hclnb : (relaxedNeighbor c st i).id ∉ st.closed_set := hskip
        have hcard : ucount ({ st with
              store := st.store.set i (relaxedNeighbor c st i),
              solution := mapAssign st.solution (relaxedNeighbor c st i).id st.node.id,
              open_set := setInsert st.open_set (relaxedNeighbor c st i).id,
              priority_open_set :=
                qpush st.priority_open_set (relaxedNeighbor c st i) } : AState)
            < ucount st := by
          unfold ucount
          dsimp only
          apply Finset.card_lt_card
          rw [Finset.ssubset_def]
          constructor
          · intro j hj
            obtain ⟨hjr, hj1, hj2⟩ := Finset.mem_filter.mp hj
            rw [show ((st.store.set i (relaxedNeighbor c st i)).length)
              = st.store.length from hlen] at hjr
            refine Finset.mem_filter.mpr ⟨hjr, ?_, ?_⟩
            · rw [hidst j] at hj1
              intro hmem
              exact hj1 (mem_setInsert_of_mem _ _ st.open_set hmem)
            · rw [hidst j] at hj2
              exact hj2
          · intro hsup
            have hifilter : i ∈ (Finset.range st.store.length).filter (fun j =>
                (st.store.getD j default).id ∉ st.open_set ∧
                (st.store.getD j default).id ∉ st.closed_set) :=
              Finset.mem_filter.mpr ⟨Finset.mem_range.mpr hi, hop, hskip⟩
            have := hsup hifilter
            obtain ⟨_, hn1, _⟩ := Finset.mem_filter.mp this
            apply hn1
            rw [hidst i]
            exact setInsert_self_mem _ st.open_set
        refine ⟨⟨?_, hwfset, ?_, ?_⟩, hlen, ?_, Nat.le_of_lt hcard, ?_⟩
        · intro q hq
          rcases List.mem_append.mp hq with hq | hq
          · refine QProp_transport q (hInv.1 q hq) ?_ rfl hlen
            intro a ha
            exact mem_setInsert_of_mem a _ st.open_set ha
          · rw [List.mem_singleton] at hq
            subst hq
            refine ⟨ht0, Or.inl (setInsert_self_mem _ st.open_set), ?_⟩
            intro j hj
            show j < (st.store.set i (relaxedNeighbor c st i)).length
            rw [hlen]
            exact hInv.2.1 (st.store.getD i default) (getD_mem st.store i hi) j hj
        · intro a ha
          dsimp only at ha
          rcases (mem_setInsert_iff a _ st.open_set).mp ha with heq | ha
          · exact ⟨relaxedNeighbor c st i,
              List.mem_append.mpr (Or.inr (List.mem_singleton.mpr rfl)), heq.symm⟩
          · obtain ⟨q, hq, hqid⟩ := hInv.2.2.1 a ha
            exact ⟨q, List.mem_append.mpr (Or.inl hq), hqid⟩
        · show (setInsert st.open_set (relaxedNeighbor c st i).id).Nodup
          unfold setInsert
          rw [if_neg hopnb]
          exact List.nodup_cons.mpr ⟨hopnb, hInv.2.2.2⟩
        · intro a ha
          exact mem_setInsert_of_mem a _ st.open_set ha
        · intro heq
          exact absurd heq (by omega)

lemma evalLoop_measure (c : Collab) (hdist : ∀ a b, 0 ≤ c.dist a b) :
    ∀ (ns : List Nat) (st : AState), (∀ j ∈ ns, j < st.store.length) →
      0 ≤ st.node.general_score → InvS st →
      InvS (evalLoop c st ns) ∧
      (evalLoop c st ns).store.length = st.store.length ∧
      (∀ a ∈ st.open_set, a ∈ (evalLoop c st ns).open_set) ∧
      ucount (evalLoop c st ns) ≤ ucount st ∧
      (ucount (evalLoop c st ns) = ucount st → phi (evalLoop c st ns) ≤ phi st) := by
  intro ns
  induction ns with
  | nil =>
    intro st _ _ hInv
    exact ⟨hInv, rfl, fun a ha => ha, Nat.le_refl _, fun _ => Nat.le_refl _⟩
  | cons i t ih =>
    intro st hns hg hInv
    obtain ⟨h1, h2, h3, h4, h5⟩ :=
      relaxStep_measure c hdist st i (hns i (List.mem_cons_self i t)) hg hInv
    obtain ⟨g1, g2, g3, g4, g5⟩ := ih (relaxStep c st i)
      (fun j hj => h2 ▸ hns j (List.mem_cons_of_mem i hj))
      (by rw [relaxStep_node c st i]; exact hg) h1
    refine ⟨g1, ?_, ?_, ?_, ?_⟩
    · show (evalLoop c (relaxStep c st i) t).store.length = st.store.length
      rw [g2, h2]
    · intro a ha
      exact g3 a (h3 a ha)
    · exact Nat.le_trans g4 h4
    · intro heq
      have heq2 : ucount (evalLoop c (relaxStep c st i) t)
          = ucount (relaxStep c st i) := by
        have : ucount (evalLoop c (relaxStep c st i) t) = ucount st := heq
        omega
      have heq3 : ucount (relaxStep c st i) = ucount st := by
        have : ucount (evalLoop c (relaxStep c st i) t) = ucount st := heq
        omega
      exact Nat.le_trans (g5 heq2) (h5 heq3)

/-- The state after the bookkeeping prelude of `evaluate_neighbors` when the
peeked top is expanded: `node_` set to the top, `has_solution_` to false,
the top popped, its id moved from the open set to the closed set. -/
def preludeState (s : AState) : AState :=
  { s with node := qtop s.priority_open_set,
           has_solution := false,
           priority_open_set := qpop s.priority_open_set,
           open_set := setErase s.open_set (qtop s.priority_open_set).id,
           closed_set := setInsert s.closed_set (qtop s.priority_open_set).id }

lemma step_measure (c : Collab) (hdist : ∀ a b, 0 ≤ c.dist a b)
    (s : AState) (hInv : InvS s) (h : (step c s).2 = true) :
    InvS (step c s).1 ∧ ucount (step c s).1 ≤ ucount s ∧
    (ucount (step c s).1 = ucount s → phi (step c s).1 < phi s) := by
  by_cases h1 : s.open_set = []
  · unfold step at h
    rw [if_pos h1] at h
    exact Bool.noConfusion h
  · by_cases h2 : c.verifier (qtop s.priority_open_set) = true
    · unfold step at h
      rw [if_neg h1, if_pos h2] at h
      exact Bool.noConfusion h
    · have hstep1 : (step c s).1
          = evalLoop c (preludeState s) (qtop s.priority_open_set).neighbors := by
        unfold step
        rw [if_neg h1, if_neg h2]
        rfl
      have hqne : s.priority_open_set ≠ [] := by
        obtain ⟨a, ha⟩ := List.exists_mem_of_ne_nil s.open_set h1
        obtain ⟨q, hq, _⟩ := hInv.2.2.1 a ha
        exact List.ne_nil_of_mem hq
      have hqt : qtop s.priority_open_set ∈ s.priority_open_set := qtop_mem _ hqne
      obtain ⟨hg0, _, hwfnd⟩ := hInv.1 _ hqt
      have hInv2 : InvS (preludeState s) := by
        unfold preludeState
        refine ⟨?_, hInv.2.1, ?_, hInv.2.2.2.erase _⟩
        · intro q hq
          have hqmem : q ∈ s.priority_open_set :=
            (List.eraseP_sublist s.priority_open_set).subset hq
          obtain ⟨q0, qadm, qwf⟩ := hInv.1 q hqmem
          refine ⟨q0, ?_, qwf⟩
          by_cases hqid : q.id = (qtop s.priority_open_set).id
          · exact Or.inr (by rw [hqid]; exact setInsert_self_mem _ s.closed_set)
          · rcases qadm with hopn | hcls
            · exact Or.inl ((List.mem_erase_of_ne hqid).mpr hopn)
            · exact Or.inr (mem_setInsert_of_mem _ _ s.closed_set hcls)
        · intro a ha
          have hamem : a ∈ s.open_set := List.mem_of_mem_erase ha
          have hane : a ≠ (qtop s.priority_open_set).id := by
            intro heq
            subst heq
            exact hInv.2.2.2.not_mem_erase ha
          obtain ⟨q, hq, hqid⟩ := hInv.2.2.1 a hamem
          refine ⟨q, ?_, hqid⟩
          exact mem_eraseP_of_pred_false s.priority_open_set q hq
            (by rw [hqid]; exact beq_eq_false_iff_ne.mpr hane)
      have hu2 : ucount (preludeState s) ≤ ucount s := by
        unfold ucount preludeState
        dsimp only
        apply Finset.card_le_card
        intro j hj
        obtain ⟨hjr, hp1, hp2⟩ := Finset.mem_filter.mp hj
        have hnotcl : (s.store.getD j default).id ∉ s.closed_set :=
          fun hmem => hp2 (mem_setInsert_of_mem _ _ s.closed_set hmem)
        have hne : (s.store.getD j default).id ≠ (qtop s.priority_open_set).id :=
          fun heq => hp2 (by rw [heq]; exact setInsert_self_mem _ s.closed_set)
        refine Finset.mem_filter.mpr ⟨hjr, ?_, hnotcl⟩
        intro hmem
        exact hp1 ((List.mem_erase_of_ne hne).mpr hmem)
      have hphi2 : phi (preludeState s) + 1 ≤ phi s := by
        unfold phi wsum preludeState
        dsimp only
        have hql := qpop_length s.priority_open_set hqne
        have hw : ∑ j in Finset.range s.store.length,
            (if (s.store.getD j default).id
                ∈ setErase s.open_set (qtop s.priority_open_set).id
              then (s.store.getD j default).general_score.toNat else 0)
            ≤ ∑ j in Finset.range s.store.length,
              (if (s.store.getD j default).id ∈ s.open_set
                then (s.store.getD j default).general_score.toNat else 0) := by
          apply Finset.sum_le_sum
          intro j _
          by_cases hmem : (s.store.getD j default).id
              ∈ setErase s.open_set (qtop s.priority_open_set).id
          · rw [if_pos hmem, if_pos (List.mem_of_mem_erase hmem)]
          · rw [if_neg hmem]
            exact Nat.zero_le _
        omega
      obtain ⟨G1, G2, G3, G4, G5⟩ := evalLoop_measure c hdist
        (qtop s.priority_open_set).neighbors (preludeState s)
        (fun j hj => hwfnd j hj) hg0 hInv2
      rw [hstep1]
      refine ⟨G1, Nat.le_trans G4 hu2, ?_⟩
      intro heq
      have h5 := G5 (by omega)
      omega

lemma iterState_shift (c : Collab) (s : AState) :
    ∀ n, iterState c s (n + 1) = iterState c (step c s).1 n := by
  intro n
  induction n with
  | zero => rfl
  | succ n ih =>
    show (step c (iterState c s (n + 1))).1 = _
    rw [ih]
    rfl

lemma terminates_aux (c : Collab) (hdist : ∀ a b, 0 ≤ c.dist a b) :
    ∀ (a b : Nat) (s : AState), InvS s → ucount s < a → phi s < b →
      ∃ n, (step c (iterState c s n)).2 = false := by
  intro a
  induction a with
  | zero =>
    intro b s _ hu _
    exact absurd hu (Nat.not_lt_zero _)
  | succ a iha =>
    intro b
    induction b with
    | zero =>
      intro s _ _ hp
      exact absurd hp (Nat.not_lt_zero _)
    | succ b ihb =>
      intro s hInv hu hp
      cases hb : (step c s).2 with
      | false => exact ⟨0, hb⟩
      | true =>
        obtain ⟨hInv', hu', himp⟩ := step_measure c hdist s hInv hb
        by_cases hlt : ucount (step c s).1 < ucount s
        · obtain ⟨n, hn⟩ := iha (phi (step c s).1 + 1) (step c s).1 hInv'
            (by omega) (Nat.lt_succ_self _)
          exact ⟨n + 1, by rw [iterState_shift]; exact hn⟩
        · have heq : ucount (step c s).1 = ucount s := by omega
          obtain ⟨n, hn⟩ := ihb (step c s).1 hInv' (by omega)
            (by have := himp heq; omega)
          exact ⟨n + 1, by rw [iterState_shift]; exact hn⟩

lemma init_inv (c : Collab) (start target : XYNode) (store : List XYNode)
    (hg : 0 ≤ start.general_score)
    (hstart : ∀ j ∈ start.neighbors, j < store.length)
    (hstore : ∀ nd ∈ store, ∀ j ∈ nd.neighbors, j < store.length) :
    InvS (init c start target store) := by
  unfold init
  refine ⟨?_, hstore, ?_, ?_⟩
  · intro q hq
    dsimp only at hq
    rw [List.mem_singleton] at hq
    subst hq
    refine ⟨hg, Or.inl ?_, hstart⟩
    show start.id ∈ setInsert [] start.id
    exact setInsert_self_mem start.id []
  · intro a ha
    dsimp only at ha
    refine ⟨{ start with heuristic_score := c.heur 0 start target },
      List.mem_singleton.mpr rfl, ?_⟩
    show start.id = a
    rcases (mem_setInsert_iff a start.id []).mp ha with heq | hmem
    · exact heq.symm
    · exact absurd hmem (List.not_mem_nil a)
  · show (setInsert [] start.id).Nodup
    unfold setInsert
    rw [if_neg (List.not_mem_nil start.id)]
    exact List.nodup_cons.mpr ⟨List.not_mem_nil start.id, List.nodup_nil⟩

/-- Claim C9: on every finite graph with non-negative edge costs (and a
non-negative start score and in-range adjacency lists), the sequence of
repeated `step` calls from construction is finite — some call returns
`false`. -/
theorem c9_steps_terminate (c : Collab) (start target : XYNode)
    (store : List XYNode)
    (hdist : ∀ a b, 0 ≤ c.dist a b)
    (hg : 0 ≤ start.general_score)
    (hstart : ∀ j ∈ start.neighbors, j < store.length)
    (hstore : ∀ nd ∈ store, ∀ j ∈ nd.neighbors, j < store.length) :
    ∃ n, (step c (iterState c (init c start target store) n)).2 = false :=
  terminates_aux c hdist (ucount (init c start target store) + 1)
    (phi (init c start target store) + 1) (init c start target store)
    (init_inv c start target store hg hstart hstore)
    (Nat.lt_succ_self _) (Nat.lt_succ_self _)

/-- Collaborators with unit edge costs, used for the termination witness. -/
def cUnit : Collab := ⟨fun _ _ => 1, demoHeur, demoVerifier 99, no_beam_search⟩

/-- Witness for C9 on a one-node graph with unit costs: the run terminates. -/
theorem c9_steps_terminate_witness :
    ∃ n, (step cUnit (iterState cUnit
      (init cUnit (⟨0, 0, 0, 0, 0, []⟩ : XYNode) t99 [⟨0, 0, 0, 0, 0, []⟩]) n)).2
        = false :=
  c9_steps_terminate cUnit ⟨0, 0, 0, 0, 0, []⟩ t99 [⟨0, 0, 0, 0, 0, []⟩]
    (fun _ _ => zero_le_one) (by decide) (by decide) (by decide)
